import Mathlib

/-!
Verification of the batch news-analysis pipeline of the gagunportfolio
repository (src/api.py, src/models.py), via a shallow embedding in Lean 4.

The embedding follows the Python source:
  - `extract_sentiment_from_analysis` (src/api.py lines 790-815): the
    regex-based sentiment extractor.  Python regexes over the lowercased
    text are modelled by explicit scanning functions over `List Char`;
    `re.search(r"sentiment[:\s]*(w1|w2|...)")` is modelled by looking, at
    every position of the text, for the literal word "sentiment" followed
    by zero or more characters of the class `[:\s]` followed by one of the
    alternative words (the existential semantics of a backtracking regex).
  - `NewsAnalysis.get_news_articles` / `set_news_articles`
    (src/models.py lines 38-47): `json.dumps` / `json.loads` are embedded
    as an executable serializer and recursive-descent parser over a JSON
    value type (integers only for numbers, since the stored payloads
    contain no numbers; documented where it matters).
  - `analyze_holding_news`, `run_batch_analysis`, `start_batch_analysis`,
    `get_batch_status` (src/api.py lines 818-1145): the per-item analyzer
    and the batch orchestrator, modelled as pure state transformers over
    explicit record-store / job values.  The external effects (news fetch
    result, LLM call result, timestamps) are inputs of the model.
-/

/-! ## Sentiment extractor (src/api.py lines 790-815) -/

/-- Python `str.lower()` restricted to ASCII, applied characterwise, as
the source does `analysis_text.lower()` before matching. -/
def pyLower (s : String) : List Char :=
  s.data.map Char.toLower

/-- The character class `[:\s]` of the source's regexes: a colon or an
ASCII whitespace character (space, tab, newline, carriage return,
vertical tab, form feed). -/
def isColonOrSpace (c : Char) : Bool :=
  c = ':' || c = ' ' || c = Char.ofNat 9 || c = Char.ofNat 10 ||
  c = Char.ofNat 13 || c = Char.ofNat 11 || c = Char.ofNat 12

/-- If the word `w` is a literal prefix of `s`, return the rest of `s`. -/
def stripWordAux : List Char → List Char → Option (List Char)
  | [], s => some s
  | _ :: _, [] => none
  | p :: ps, c :: cs => if p = c then stripWordAux ps cs else none

/-- Does `s` start with the literal word `w`? -/
def startsWithWord (w s : List Char) : Bool :=
  (stripWordAux w s).isSome

/-- After the literal "sentiment", the regexes allow `[:\s]*` and then one
of the alternative words `ws`; a backtracking regex matches here iff some
(possibly empty) run of `[:\s]` characters is followed by one of `ws`. -/
def matchGroupAfterGap (ws : List (List Char)) : List Char → Bool
  | [] => ws.any (fun w => startsWithWord w [])
  | c :: rest =>
      ws.any (fun w => startsWithWord w (c :: rest)) ||
      (isColonOrSpace c && matchGroupAfterGap ws rest)

/-- The literal word "sentiment" common to the three explicit-marker
regexes. -/
def sentimentWord : List Char := "sentiment".data

/-- Does the regex `sentiment[:\s]*(ws...)` match at the start of `s`? -/
def matchSentPatAt (ws : List (List Char)) (s : List Char) : Bool :=
  match stripWordAux sentimentWord s with
  | some rest => matchGroupAfterGap ws rest
  | none => false

/-- `re.search` for `sentiment[:\s]*(ws...)`: try every position. -/
def searchSentPat (ws : List (List Char)) : List Char → Bool
  | [] => matchSentPatAt ws []
  | c :: rest => matchSentPatAt ws (c :: rest) || searchSentPat ws rest

/-- `re.search` for a plain alternation of literal words `(w1|w2|...)`:
some position of the text starts with one of the words. -/
def searchAnyWord (ws : List (List Char)) : List Char → Bool
  | [] => ws.any (fun w => startsWithWord w [])
  | c :: rest => ws.any (fun w => startsWithWord w (c :: rest)) || searchAnyWord ws rest

def positiveSentWords : List (List Char) :=
  ["positive".data, "bullish".data, "optimistic".data, "favorable".data]

def negativeSentWords : List (List Char) :=
  ["negative".data, "bearish".data, "pessimistic".data, "unfavorable".data]

def neutralSentWords : List (List Char) :=
  ["neutral".data, "mixed".data]

def buyWords : List (List Char) :=
  ["buy".data, "buy more".data, "increase".data, "add".data]

def sellWords : List (List Char) :=
  ["sell".data, "reduce".data, "decrease".data, "exit".data]

def holdWords : List (List Char) :=
  ["hold".data, "maintain".data, "keep".data]

/-- `extract_sentiment_from_analysis` (src/api.py lines 790-815).
Returns `none` for falsy (empty) input, otherwise checks the three
explicit-sentiment regexes, then the three action-word regexes, in the
source's order, defaulting to `"neutral"`. -/
def extract_sentiment_from_analysis (analysis_text : String) : Option String :=
  if analysis_text.data = [] then none
  else
    let text_lower := pyLower analysis_text
    if searchSentPat positiveSentWords text_lower then some "positive"
    else if searchSentPat negativeSentWords text_lower then some "negative"
    else if searchSentPat neutralSentWords text_lower then some "neutral"
    else if searchAnyWord buyWords text_lower then some "positive"
    else if searchAnyWord sellWords text_lower then some "negative"
    else if searchAnyWord holdWords text_lower then some "neutral"
    else some "neutral"

/-! ## Lemmas about the extractor -/

theorem stripWordAux_append (w r : List Char) :
    stripWordAux w (w ++ r) = some r := by
  induction w with
  | nil => rfl
  | cons c cs ih => simp [stripWordAux, ih]

theorem matchSentPatAt_of_append (ws : List (List Char)) (rest : List Char)
    (h : matchGroupAfterGap ws rest = true) :
    matchSentPatAt ws (sentimentWord ++ rest) = true := by
  simp [matchSentPatAt, stripWordAux_append, h]

theorem searchSentPat_of_matchAt (ws : List (List Char)) (s : List Char)
    (h : matchSentPatAt ws s = true) :
    searchSentPat ws s = true := by
  cases s with
  | nil => simpa [searchSentPat] using h
  | cons c rest => simp [searchSentPat, h]

theorem searchSentPat_append_left (ws : List (List Char)) (pre s : List Char)
    (h : searchSentPat ws s = true) :
    searchSentPat ws (pre ++ s) = true := by
  induction pre with
  | nil => simpa using h
  | cons c cs ih =>
    cases hs : searchSentPat ws (cs ++ s)
    · exact absurd (ih) (by simp [hs])
    · simp [searchSentPat, hs]

theorem matchGroup_positive_at (l : List Char) :
    matchGroupAfterGap positiveSentWords (':' :: ' ' :: ("positive".data ++ l)) = true := by
  simp [matchGroupAfterGap, positiveSentWords, startsWithWord, stripWordAux,
    isColonOrSpace, stripWordAux_append]

theorem matchSentPatAt_positive_marker (l : List Char) :
    matchSentPatAt positiveSentWords ("sentiment: positive".data ++ l) = true := by
  have h1 : "sentiment: positive".data ++ l
      = sentimentWord ++ (':' :: ' ' :: ("positive".data ++ l)) := rfl
  rw [h1]
  exact matchSentPatAt_of_append _ _ (matchGroup_positive_at l)

/-- C7: any analysis text that contains "sentiment: positive" after
lowercasing (hence in any letter case, with any surrounding text) is
classified positive by `extract_sentiment_from_analysis`. -/
theorem extract_sentiment_positive_of_marker (s : String)
    (h : List.IsInfix "sentiment: positive".data (pyLower s)) :
    extract_sentiment_from_analysis s = some "positive" := by
  obtain ⟨l₁, l₂, heq⟩ := h
  have hsearch : searchSentPat positiveSentWords (pyLower s) = true := by
    rw [← heq, List.append_assoc]
    exact searchSentPat_append_left _ _ _
      (searchSentPat_of_matchAt _ _ (matchSentPatAt_positive_marker l₂))
  have hne : ¬ s.data = [] := by
    intro h0
    have hempty : pyLower s = [] := by simp [pyLower, h0]
    rw [← heq] at hempty
    simp at hempty
  simp [extract_sentiment_from_analysis, hne, hsearch]

/-- Witness for C7 at a concrete mixed-case input. -/
theorem extract_sentiment_positive_of_marker_witness :
    extract_sentiment_from_analysis "Overall Sentiment: Positive on earnings" = some "positive" :=
  extract_sentiment_positive_of_marker _ (by decide)

/-- C8: the extractor maps empty (falsy) input to `none`, and every
non-empty input to exactly one of the three sentiment labels; it is a
total function. -/
theorem extract_sentiment_total :
    extract_sentiment_from_analysis "" = none ∧
    ∀ s : String, s ≠ "" →
      (extract_sentiment_from_analysis s = some "positive" ∨
       extract_sentiment_from_analysis s = some "negative" ∨
       extract_sentiment_from_analysis s = some "neutral") := by
  refine ⟨rfl, fun s hs => ?_⟩
  have hd : ¬ s.data = [] := by
    intro h0
    apply hs
    cases s with
    | mk d => simp only at h0; simp [h0]
  simp only [extract_sentiment_from_analysis, if_neg hd]
  split_ifs <;> simp

/-- Witness for C8 at a concrete input. -/
theorem extract_sentiment_total_witness :
    extract_sentiment_from_analysis "no keywords at all" = some "positive" ∨
    extract_sentiment_from_analysis "no keywords at all" = some "negative" ∨
    extract_sentiment_from_analysis "no keywords at all" = some "neutral" :=
  extract_sentiment_total.2 "no keywords at all" (by decide)

/-! ## JSON values, `json.dumps` and `json.loads`
(models.py lines 38-47 store the article list as a JSON string).
`json.dumps(..., ensure_ascii=False)` with Python's default separators
", " and ": " is embedded as `dumpsVal`; `json.loads` as a
recursive-descent parser `parseVal` (fueled by the input length; floats,
exponents and the leading-zero rule are not modelled since the stored
payloads contain only strings, objects and arrays). -/

def lbraceChar : Char := Char.ofNat 123

def rbraceChar : Char := Char.ofNat 125

inductive JVal where
  | jnull
  | jbool (b : Bool)
  | jint (n : Int)
  | jstr (s : String)
  | jarr (xs : List JVal)
  | jobj (fields : List (String × JVal))

/-- Lowercase hexadecimal digit, as Python's `json` emits in `\u00xx`. -/
def hexDigitChar (n : Nat) : Char :=
  if n < 10 then Char.ofNat (48 + n) else Char.ofNat (87 + n)

/-- Escaping of one character inside a JSON string, per Python `json.dumps`
with `ensure_ascii=False`: backslash, quote, the five short control
escapes, `\u00XX` for the remaining control characters, and every other
character verbatim. -/
def escChar (c : Char) : List Char :=
  if c = '\\' then ['\\', '\\']
  else if c = '"' then ['\\', '"']
  else if c = Char.ofNat 10 then ['\\', 'n']
  else if c = Char.ofNat 9 then ['\\', 't']
  else if c = Char.ofNat 13 then ['\\', 'r']
  else if c = Char.ofNat 8 then ['\\', 'b']
  else if c = Char.ofNat 12 then ['\\', 'f']
  else if c.toNat < 32 then
    ['\\', 'u', '0', '0', hexDigitChar (c.toNat / 16), hexDigitChar (c.toNat % 16)]
  else [c]

def escList : List Char → List Char
  | [] => []
  | c :: cs => escChar c ++ escList cs

def dumpsStr (s : String) : List Char :=
  '"' :: (escList s.data ++ ['"'])

mutual

def dumpsVal : JVal → List Char
  | .jnull => "null".data
  | .jbool true => "true".data
  | .jbool false => "false".data
  | .jint n => (toString n).data
  | .jstr s => dumpsStr s
  | .jarr xs => '[' :: (dumpsItems xs ++ [']'])
  | .jobj fs => lbraceChar :: (dumpsFields fs ++ [rbraceChar])

def dumpsItems : List JVal → List Char
  | [] => []
  | [x] => dumpsVal x
  | x :: y :: xs => dumpsVal x ++ (',' :: ' ' :: dumpsItems (y :: xs))

def dumpsFields : List (String × JVal) → List Char
  | [] => []
  | [(k, v)] => dumpsStr k ++ (':' :: ' ' :: dumpsVal v)
  | (k, v) :: f :: fs =>
      dumpsStr k ++ (':' :: ' ' :: dumpsVal v) ++ (',' :: ' ' :: dumpsFields (f :: fs))

end

def isJsonWs (c : Char) : Bool :=
  c = ' ' || c = Char.ofNat 9 || c = Char.ofNat 10 || c = Char.ofNat 13

def skipWs : List Char → List Char
  | [] => []
  | c :: rest => if isJsonWs c then skipWs rest else c :: rest

def hexVal (c : Char) : Option Nat :=
  if 48 ≤ c.toNat ∧ c.toNat ≤ 57 then some (c.toNat - 48)
  else if 97 ≤ c.toNat ∧ c.toNat ≤ 102 then some (c.toNat - 87)
  else if 65 ≤ c.toNat ∧ c.toNat ≤ 70 then some (c.toNat - 55)
  else none

def unescapeChar (c : Char) : Option Char :=
  if c = '"' then some '"'
  else if c = '\\' then some '\\'
  else if c = '/' then some '/'
  else if c = 'n' then some (Char.ofNat 10)
  else if c = 't' then some (Char.ofNat 9)
  else if c = 'r' then some (Char.ofNat 13)
  else if c = 'b' then some (Char.ofNat 8)
  else if c = 'f' then some (Char.ofNat 12)
  else none

/-- JSON string body parser: consumes up to and including the closing
quote, decoding escapes; rejects unescaped control characters, bad
escapes and unterminated strings, as Python's parser does. -/
def parseStringAux : List Char → List Char → Option (String × List Char)
  | _, [] => none
  | acc, c :: rest =>
    if c = '"' then some (String.mk acc.reverse, rest)
    else if c = '\\' then
      match rest with
      | [] => none
      | e :: rest2 =>
        if e = 'u' then
          match rest2 with
          | h1 :: h2 :: h3 :: h4 :: rest3 =>
            match hexVal h1, hexVal h2, hexVal h3, hexVal h4 with
            | some a, some b, some cc, some d =>
                parseStringAux (Char.ofNat (((a * 16 + b) * 16 + cc) * 16 + d) :: acc) rest3
            | _, _, _, _ => none
          | _ => none
        else
          match unescapeChar e with
          | some d => parseStringAux (d :: acc) rest2
          | none => none
    else if c.toNat < 32 then none
    else parseStringAux (c :: acc) rest

def isDigitChar (c : Char) : Bool :=
  48 ≤ c.toNat && c.toNat ≤ 57

def parseDigitsAux : Nat → List Char → Nat × List Char
  | acc, [] => (acc, [])
  | acc, c :: rest =>
      if isDigitChar c then parseDigitsAux (acc * 10 + (c.toNat - 48)) rest
      else (acc, c :: rest)

def parseNat : List Char → Option (Nat × List Char)
  | [] => none
  | c :: rest =>
      if isDigitChar c then some (parseDigitsAux (c.toNat - 48) rest) else none

mutual

def parseVal : Nat → List Char → Option (JVal × List Char)
  | 0, _ => none
  | fuel + 1, s =>
    match skipWs s with
    | [] => none
    | c :: rest =>
      if c = '"' then
        match parseStringAux [] rest with
        | some (str, r2) => some (JVal.jstr str, r2)
        | none => none
      else if c = '[' then
        match skipWs rest with
        | [] => none
        | d :: r2 =>
          if d = ']' then some (JVal.jarr [], r2)
          else
            match parseItems fuel (d :: r2) with
            | some (xs, r3) => some (JVal.jarr xs, r3)
            | none => none
      else if c = lbraceChar then
        match skipWs rest with
        | [] => none
        | d :: r2 =>
          if d = rbraceChar then some (JVal.jobj [], r2)
          else
            match parseFields fuel (d :: r2) with
            | some (fs, r3) => some (JVal.jobj fs, r3)
            | none => none
      else if c = 't' then
        match stripWordAux "rue".data rest with
        | some r2 => some (JVal.jbool true, r2)
        | none => none
      else if c = 'f' then
        match stripWordAux "alse".data rest with
        | some r2 => some (JVal.jbool false, r2)
        | none => none
      else if c = 'n' then
        match stripWordAux "ull".data rest with
        | some r2 => some (JVal.jnull, r2)
        | none => none
      else if c = '-' then
        match parseNat rest with
        | some (n, r2) => some (JVal.jint (-(n : Int)), r2)
        | none => none
      else if isDigitChar c then
        let p := parseDigitsAux (c.toNat - 48) rest
        some (JVal.jint (p.1 : Int), p.2)
      else none

def parseItems : Nat → List Char → Option (List JVal × List Char)
  | 0, _ => none
  | fuel + 1, s =>
    match parseVal fuel s with
    | some (v, r1) =>
      match skipWs r1 with
      | [] => none
      | d :: r2 =>
        if d = ',' then
          match parseItems fuel r2 with
          | some (xs, r3) => some (v :: xs, r3)
          | none => none
        else if d = ']' then some ([v], r2)
        else none
    | none => none

def parseFields : Nat → List Char → Option (List (String × JVal) × List Char)
  | 0, _ => none
  | fuel + 1, s =>
    match skipWs s with
    | [] => none
    | c :: rest =>
      if c = '"' then
        match parseStringAux [] rest with
        | some (k, r1) =>
          match skipWs r1 with
          | [] => none
          | d :: r2 =>
            if d = ':' then
              match parseVal fuel r2 with
              | some (v, r3) =>
                match skipWs r3 with
                | [] => none
                | d2 :: r4 =>
                  if d2 = ',' then
                    match parseFields fuel r4 with
                    | some (fs, r5) => some ((k, v) :: fs, r5)
                    | none => none
                  else if d2 = rbraceChar then some ([(k, v)], r4)
                  else none
              | none => none
            else none
        | none => none
      else none

end

/-- `json.loads`: parse one value, then require only whitespace to remain.
The fuel `length + 1` is sufficient for every input the pipeline stores
(proved below for the serialized article lists). -/
def json_loads (s : String) : Option JVal :=
  match parseVal (s.data.length + 1) s.data with
  | some (v, rest) => if skipWs rest = [] then some v else none
  | none => none

def json_dumps (v : JVal) : String :=
  String.mk (dumpsVal v)

/-- One news article as built by `fetch_stock_news`
(src/api.py lines 568-574, 586-592): a dict of five string fields. -/
structure Article where
  title : String
  summary : String
  link : String
  published : String
  source : String
deriving DecidableEq

/-- The key/value pairs of one serialized article dict, in the insertion
order of src/api.py lines 568-574. -/
def articleFields (a : Article) : List (String × JVal) :=
  [("title", JVal.jstr a.title), ("summary", JVal.jstr a.summary),
   ("link", JVal.jstr a.link), ("published", JVal.jstr a.published),
   ("source", JVal.jstr a.source)]

def encodeArticle (a : Article) : JVal :=
  JVal.jobj (articleFields a)

def encodeArticles (arts : List Article) : JVal :=
  JVal.jarr (arts.map encodeArticle)

/-- `NewsAnalysis.set_news_articles` (src/models.py lines 45-47). -/
def set_news_articles (articles : List Article) : String :=
  json_dumps (encodeArticles articles)

/-- `NewsAnalysis.get_news_articles` (src/models.py lines 38-43):
returns `[]` for falsy (empty) stored text, the decoded value on parse
success, and `[]` when `json.loads` raises. -/
def get_news_articles (news_articles : String) : JVal :=
  if news_articles.data = [] then JVal.jarr []
  else
    match json_loads news_articles with
    | some v => v
    | none => JVal.jarr []

/-! ## Data model and pipeline state
(src/models.py lines 7-61, src/api.py lines 818-1145).
External effects are inputs of the model: the news-fetch result and the
LLM call outcome per ticker, and timestamps.  Timestamps are abstract
`Nat` values.  The LLM outcome is `Except String String`: `.error msg`
stands for any exception inside the analyzer's `try` block (HTTP non-200,
timeout, transport error), whose message `str(e)` is recorded; a 200
response with empty content raises "No analysis received from AI" in the
source and is modelled explicitly. -/

/-- Python `str.upper()` restricted to ASCII, as used on tickers. -/
def pyUpper (s : String) : String :=
  String.mk (s.data.map Char.toUpper)

/-- `Holding` (src/models.py lines 7-22), restricted to the fields the
pipeline's control flow reads: `id`, `ticker` and `qty` (the valuation
fields only feed the LLM prompt text, which is an input of this model).
`qty` is a Python float compared against the literal `0.0001`; it is
modelled as a rational. -/
structure Holding where
  id : Nat
  ticker : String
  qty : Rat
deriving DecidableEq

/-- `NewsAnalysis` (src/models.py lines 25-36). -/
structure NewsAnalysis where
  ticker : String
  holding_id : Option Nat
  status : String
  news_count : Nat
  news_articles : String
  analysis : Option String
  sentiment : Option String
  error_message : Option String
deriving DecidableEq

/-- `BatchJob` (src/models.py lines 50-61). -/
structure BatchJob where
  id : Nat
  created_at : Nat
  started_at : Option Nat
  completed_at : Option Nat
  status : String
  total_holdings : Nat
  processed_holdings : Nat
  successful_holdings : Nat
  failed_holdings : Nat
  error_message : Option String
deriving DecidableEq

/-- A freshly created batch job record, as `start_batch_analysis` builds
it (src/api.py lines 1090-1096): status "pending", all counters zero. -/
def newBatchJob (id created : Nat) : BatchJob :=
  { id := id, created_at := created, started_at := none, completed_at := none,
    status := "pending", total_holdings := 0, processed_holdings := 0,
    successful_holdings := 0, failed_holdings := 0, error_message := none }

/-- `analyze_holding_news` (src/api.py lines 818-1005) as a state
transformer for one ticker.  Inputs: the existing record for the
(uppercased) ticker if any, the fetched article list, and the LLM call
outcome.  Output: the written record, the updated batch job, and the
boolean the coroutine returns.  Paths, in source order:
  - the record is created or reset to "pending" (lines 840-852);
  - zero articles: record set to "failed" with the "No recent news found"
    message and the function returns False while still inside the `try`
    block -- the job counters are NOT touched on this path (lines 861-868);
  - an exception from the HTTP call, a non-200 status, or empty content:
    the `except` handler sets the record to "failed" with `str(e)` and
    increments `processed_holdings` and `failed_holdings`
    (lines 989-1005);
  - success: the record gets the article list, analysis text and extracted
    sentiment, `error_message` is cleared, and `processed_holdings` and
    `successful_holdings` are incremented (lines 959-987).
The source re-reads the job row by id and skips the increment if the row
is missing; the model takes the (existing) job as a value. -/
def analyze_holding_news (holding : Holding) (prev : Option NewsAnalysis)
    (articles : List Article) (llm : Except String String) (job : BatchJob) :
    NewsAnalysis × BatchJob × Bool :=
  let tick := pyUpper holding.ticker
  let analysis0 : NewsAnalysis :=
    match prev with
    | none =>
        { ticker := tick, holding_id := some holding.id, status := "pending",
          news_count := 0, news_articles := "[]", analysis := none,
          sentiment := none, error_message := none }
    | some a => { a with status := "pending", holding_id := some holding.id }
  if articles.isEmpty then
    ({ analysis0 with
        status := "failed",
        error_message := some ("No recent news found for " ++ tick) },
     job, false)
  else
    match llm with
    | .error msg =>
        ({ analysis0 with status := "failed", error_message := some msg },
         { job with
            processed_holdings := job.processed_holdings + 1,
            failed_holdings := job.failed_holdings + 1 },
         false)
    | .ok text =>
        if text = "" then
          ({ analysis0 with
              status := "failed",
              error_message := some "No analysis received from AI" },
           { job with
              processed_holdings := job.processed_holdings + 1,
              failed_holdings := job.failed_holdings + 1 },
           false)
        else
          ({ analysis0 with
              status := "completed",
              news_count := articles.length,
              news_articles := set_news_articles articles,
              analysis := some text,
              sentiment := extract_sentiment_from_analysis text,
              error_message := none },
           { job with
              processed_holdings := job.processed_holdings + 1,
              successful_holdings := job.successful_holdings + 1 },
           true)

/-- What happened when the orchestrator's loop handed one holding to the
analyzer: either the analyzer ran (with the given fetch and LLM results),
or it raised before its own `try` block (e.g. the missing-API-key check,
src/api.py lines 825-828), which the orchestrator's `except` catches. -/
inductive AnalyzeInput where
  | ran (articles : List Article) (llm : Except String String)
  | raised

/-- The record for `tick` in the store, via the analyzer's
`select(NewsAnalysis).where(ticker == ...)` lookup. -/
def findRecord (records : List NewsAnalysis) (tick : String) : Option NewsAnalysis :=
  records.find? (fun r => r.ticker = tick)

/-- Commit of the analyzer's record: replaces the live record for its
ticker or appends a new one (the `session.add` / update split at
src/api.py lines 840-849). -/
def upsertRecord (records : List NewsAnalysis) (ra : NewsAnalysis) : List NewsAnalysis :=
  if (records.find? (fun x => x.ticker = ra.ticker)).isSome then
    records.map (fun x => if x.ticker = ra.ticker then ra else x)
  else
    records ++ [ra]

/-- Shared persisted state the pipeline mutates: the `NewsAnalysis` table
and the current batch job row. -/
structure PipelineState where
  records : List NewsAnalysis
  job : BatchJob

/-- One iteration of the orchestrator's loop (src/api.py lines 1037-1056):
delegate to the analyzer, or -- when the analyzer itself raised -- count
the holding as processed and failed without touching its record. -/
def processHolding (st : PipelineState) (h : Holding) (inp : AnalyzeInput) : PipelineState :=
  match inp with
  | .raised =>
      { st with job :=
          { st.job with
              processed_holdings := st.job.processed_holdings + 1,
              failed_holdings := st.job.failed_holdings + 1 } }
  | .ran articles llm =>
      let prev := findRecord st.records (pyUpper h.ticker)
      let out := analyze_holding_news h prev articles llm st.job
      { records := upsertRecord st.records out.1, job := out.2.1 }

/-- The eligibility threshold of the batch loop's query
`Holding.qty > 0.0001` (src/api.py line 1026). -/
def qtyEps : Rat := 1 / 10000

/-- The holdings the batch query selects (src/api.py lines 1025-1027). -/
def eligibleHoldings (holdings : List Holding) : List Holding :=
  holdings.filter (fun h => qtyEps < h.qty)

/-- The job row right after the orchestrator marks it running and sets
`total_holdings` to the size of the eligible set
(src/api.py lines 1020-1030). -/
def startedBatchJob (job : BatchJob) (n tStart : Nat) : BatchJob :=
  { job with status := "running", started_at := some tStart, total_holdings := n }

/-- The orchestrator's sequential loop (src/api.py lines 1037-1056). -/
def batchLoop (st : PipelineState) (l : List (Holding × AnalyzeInput)) : PipelineState :=
  l.foldl (fun s hi => processHolding s hi.1 hi.2) st

/-- `run_batch_analysis` (src/api.py lines 1008-1067): mark the job
running, select holdings with `qty > 0.0001`, set `total_holdings`,
process each holding sequentially, then unconditionally mark the job
completed.  `inputs` pairs each eligible holding with its external
outcome, in loop order. -/
def run_batch_analysis (st : PipelineState) (holdings : List Holding)
    (inputs : List AnalyzeInput) (tStart tEnd : Nat) : PipelineState :=
  let eligible := eligibleHoldings holdings
  let st2 := batchLoop
    { st with job := startedBatchJob st.job eligible.length tStart }
    (eligible.zip inputs)
  { st2 with job := { st2.job with status := "completed", completed_at := some tEnd } }

/-- `start_batch_analysis` (src/api.py lines 1070-1112).  The whole body
runs under `batch_job_lock`, so the running-job check and the job-record
creation are atomic with respect to other start requests; the model
renders that critical section as one transition on the job table.
Returns the updated job list, the `job_id` of the JSON response, and
whether a new job was created (`"status": "success"`). -/
def start_batch_analysis (jobs : List BatchJob) (newId created : Nat) :
    List BatchJob × Nat × Bool :=
  match jobs.find? (fun j => j.status = "running") with
  | some running_job => (jobs, running_job.id, false)
  | none =>
      let batch_job := newBatchJob newId created
      (jobs ++ [batch_job], batch_job.id, true)

/-- The job snapshot `get_batch_status` reports (src/api.py lines
1115-1145): the most recently created job.  Creation order is list
order, so `created_at desc` picks the last element. -/
def get_batch_status (jobs : List BatchJob) : Option BatchJob :=
  jobs.getLast?

/-- The derived `progress_pct` field of the status response
(src/api.py line 1143), modelled over the rationals without the final
round-to-one-decimal (exact at the values 0 and 100 the claims are
about). -/
def progress_pct (j : BatchJob) : Rat :=
  if 0 < j.total_holdings then
    (j.processed_holdings : Rat) / (j.total_holdings : Rat) * 100
  else 0

/-! ## Batch lifecycle and concurrency-guard theorems -/

/-- C5: for every batch run, whatever the per-holding outcomes, the final
job update sets status "completed" and a non-null completed_at -- the job
never ends "failed" because individual tickers failed. -/
theorem run_batch_completes (st : PipelineState) (holdings : List Holding)
    (inputs : List AnalyzeInput) (tStart tEnd : Nat) :
    (run_batch_analysis st holdings inputs tStart tEnd).job.status = "completed" ∧
    (run_batch_analysis st holdings inputs tStart tEnd).job.completed_at = some tEnd := by
  constructor <;> rfl

/-- C2 (code bug): on the zero-articles path the analyzer marks the
record failed with the "no recent news" message and returns False, but
returns from inside the `try` block without touching the job counters:
the job is returned unchanged, for every job state. -/
theorem analyze_noNews_leaves_counters (h : Holding) (prev : Option NewsAnalysis)
    (llm : Except String String) (job : BatchJob) :
    (analyze_holding_news h prev [] llm job).2.1 = job ∧
    (analyze_holding_news h prev [] llm job).1.status = "failed" ∧
    (analyze_holding_news h prev [] llm job).1.error_message
      = some ("No recent news found for " ++ pyUpper h.ticker) ∧
    (analyze_holding_news h prev [] llm job).2.2 = false := by
  cases prev <;> simp [analyze_holding_news]

/-- A concrete holding eligible for the batch (qty 1 > 0.0001). -/
def holdingEx : Holding := { id := 1, ticker := "aapl", qty := 1 }

/-- C6 (code bug): a completed batch over one eligible holding whose news
fetch returned zero articles ends with processed_holdings = 0 <
total_holdings = 1, so the reported progress percentage is 0, not 100. -/
theorem progress_not_100_after_noNews_batch :
    (run_batch_analysis { records := [], job := newBatchJob 1 0 } [holdingEx]
        [AnalyzeInput.ran [] (Except.ok "text")] 0 1).job.status = "completed" ∧
    (run_batch_analysis { records := [], job := newBatchJob 1 0 } [holdingEx]
        [AnalyzeInput.ran [] (Except.ok "text")] 0 1).job.total_holdings = 1 ∧
    (run_batch_analysis { records := [], job := newBatchJob 1 0 } [holdingEx]
        [AnalyzeInput.ran [] (Except.ok "text")] 0 1).job.processed_holdings = 0 ∧
    progress_pct ((run_batch_analysis { records := [], job := newBatchJob 1 0 } [holdingEx]
        [AnalyzeInput.ran [] (Except.ok "text")] 0 1).job) = 0 := by
  refine ⟨rfl, ?_, ?_, ?_⟩ <;> norm_num [run_batch_analysis, eligibleHoldings, qtyEps,
    holdingEx, batchLoop, processHolding, analyze_holding_news, findRecord,
    startedBatchJob, newBatchJob, progress_pct]

/-- C4: if some job in the table is "running", the start operation
returns that job's id, reports no new job, and leaves the table
unchanged.  In the source the check and the creation both happen inside
one `with batch_job_lock:` block, which this model renders as a single
atomic transition. -/
theorem start_batch_rejects_when_running (jobs : List BatchJob) (newId created : Nat)
    (hrun : ∃ j ∈ jobs, j.status = "running") :
    (start_batch_analysis jobs newId created).1 = jobs ∧
    (start_batch_analysis jobs newId created).2.2 = false ∧
    ∃ j ∈ jobs, j.status = "running" ∧
      (start_batch_analysis jobs newId created).2.1 = j.id := by
  obtain ⟨j, hj, hst⟩ := hrun
  have hsome : (jobs.find? (fun j => j.status = "running")).isSome := by
    apply List.find?_isSome.mpr
    exact ⟨j, hj, by simp [hst]⟩
  obtain ⟨rj, hrj⟩ := Option.isSome_iff_exists.mp hsome
  have hmem : rj ∈ jobs := List.mem_of_find?_eq_some hrj
  have hstat : rj.status = "running" := by
    have hp := List.find?_some hrj
    simpa using hp
  refine ⟨?_, ?_, rj, hmem, hstat, ?_⟩ <;> simp [start_batch_analysis, hrj]

/-- A concrete running job, for the witnesses. -/
def runningJobEx : BatchJob := { newBatchJob 7 0 with status := "running" }

/-- Witness for C4: with one running job in the table, the start request
returns its id and creates nothing. -/
theorem start_batch_rejects_when_running_witness :
    (start_batch_analysis [runningJobEx] 8 1).1 = [runningJobEx] ∧
    (start_batch_analysis [runningJobEx] 8 1).2.2 = false ∧
    ∃ j ∈ [runningJobEx], j.status = "running" ∧
      (start_batch_analysis [runningJobEx] 8 1).2.1 = j.id :=
  start_batch_rejects_when_running [runningJobEx] 8 1
    ⟨runningJobEx, by simp, rfl⟩

/-- C9 (implicit behavior): the guard only matches status "running", so
when the most recent job is still "pending" and nothing is running, a
second start request really does append and launch a second job record
and returns its fresh id. -/
theorem start_batch_creates_second_when_pending (jobs : List BatchJob)
    (newId created : Nat) (jp : BatchJob)
    (hlast : jobs.getLast? = some jp) (hpend : jp.status = "pending")
    (hnorun : ∀ j ∈ jobs, j.status ≠ "running") :
    (start_batch_analysis jobs newId created).1 = jobs ++ [newBatchJob newId created] ∧
    (start_batch_analysis jobs newId created).2.1 = newId ∧
    (start_batch_analysis jobs newId created).2.2 = true := by
  have hfind : jobs.find? (fun j => j.status = "running") = none := by
    apply List.find?_eq_none.mpr
    intro j hj
    simp [hnorun j hj]
  refine ⟨?_, ?_, ?_⟩ <;> simp [start_batch_analysis, hfind, newBatchJob]

/-- Witness for C9: one pending job in the table, a new start call
creates a second record. -/
theorem start_batch_creates_second_when_pending_witness :
    (start_batch_analysis [newBatchJob 1 0] 2 5).1
      = [newBatchJob 1 0] ++ [newBatchJob 2 5] ∧
    (start_batch_analysis [newBatchJob 1 0] 2 5).2.1 = 2 ∧
    (start_batch_analysis [newBatchJob 1 0] 2 5).2.2 = true :=
  start_batch_creates_second_when_pending [newBatchJob 1 0] 2 5 (newBatchJob 1 0)
    rfl rfl (by intro j hj; simp at hj; simp [hj, newBatchJob])

/-! ## Counter invariant (C1) -/

/-- The spec's counter equation. -/
def countersInv (j : BatchJob) : Prop :=
  j.processed_holdings = j.successful_holdings + j.failed_holdings

theorem analyze_preserves_countersInv (h : Holding) (prev : Option NewsAnalysis)
    (articles : List Article) (llm : Except String String) (job : BatchJob)
    (hinv : countersInv job) :
    countersInv (analyze_holding_news h prev articles llm job).2.1 := by
  unfold countersInv at hinv ⊢
  rcases llm with msg | text <;>
    by_cases he : articles.isEmpty <;>
    simp [analyze_holding_news, he] <;>
    (try split_ifs) <;> (try simp) <;> omega

theorem analyze_processed_le (h : Holding) (prev : Option NewsAnalysis)
    (articles : List Article) (llm : Except String String) (job : BatchJob) :
    (analyze_holding_news h prev articles llm job).2.1.processed_holdings
      ≤ job.processed_holdings + 1 := by
  rcases llm with msg | text <;>
    by_cases he : articles.isEmpty <;>
    simp [analyze_holding_news, he] <;>
    (try split_ifs) <;> (try simp) <;> omega

theorem analyze_total_eq (h : Holding) (prev : Option NewsAnalysis)
    (articles : List Article) (llm : Except String String) (job : BatchJob) :
    (analyze_holding_news h prev articles llm job).2.1.total_holdings
      = job.total_holdings := by
  rcases llm with msg | text <;>
    by_cases he : articles.isEmpty <;>
    simp [analyze_holding_news, he] <;>
    (try split_ifs) <;> (try simp)

theorem processHolding_preserves_countersInv (st : PipelineState) (h : Holding)
    (inp : AnalyzeInput) (hinv : countersInv st.job) :
    countersInv (processHolding st h inp).job := by
  cases inp with
  | raised =>
      unfold countersInv at hinv ⊢
      simp [processHolding]
      omega
  | ran articles llm => exact analyze_preserves_countersInv _ _ _ _ _ hinv

theorem processHolding_processed_le (st : PipelineState) (h : Holding)
    (inp : AnalyzeInput) :
    (processHolding st h inp).job.processed_holdings ≤ st.job.processed_holdings + 1 := by
  cases inp with
  | raised => simp [processHolding]
  | ran articles llm => exact analyze_processed_le _ _ _ _ _

theorem processHolding_total_eq (st : PipelineState) (h : Holding)
    (inp : AnalyzeInput) :
    (processHolding st h inp).job.total_holdings = st.job.total_holdings := by
  cases inp with
  | raised => simp [processHolding]
  | ran articles llm => exact analyze_total_eq _ _ _ _ _

theorem batchLoop_counters (l : List (Holding × AnalyzeInput)) :
    ∀ st : PipelineState, countersInv st.job →
      countersInv (batchLoop st l).job ∧
      (batchLoop st l).job.processed_holdings
        ≤ st.job.processed_holdings + l.length ∧
      (batchLoop st l).job.total_holdings = st.job.total_holdings := by
  induction l with
  | nil => intro st hinv; simpa [batchLoop] using hinv
  | cons hd tl ih =>
      intro st hinv
      have hstep := processHolding_preserves_countersInv st hd.1 hd.2 hinv
      obtain ⟨a, b, c⟩ := ih (processHolding st hd.1 hd.2) hstep
      have hle := processHolding_processed_le st hd.1 hd.2
      have htot := processHolding_total_eq st hd.1 hd.2
      refine ⟨?_, ?_, ?_⟩
      · simpa [batchLoop] using a
      · simp only [batchLoop, List.foldl_cons] at b ⊢
        simp only [List.length_cons]
        omega
      · simp only [batchLoop, List.foldl_cons] at c ⊢
        rw [c, htot]

/-- C1: the counter equation holds for a freshly created job, and at
every point of the batch loop (hence after every increment the analyzer
or the orchestrator performs, for any mix of outcomes); and once
`total_holdings` is set from the eligible set, `processed_holdings`
never exceeds it at any point of the loop. -/
theorem batch_counters_invariant (id created tStart : Nat)
    (records : List NewsAnalysis) (holdings : List Holding)
    (inputs : List AnalyzeInput) (pre suf : List (Holding × AnalyzeInput))
    (hsplit : (eligibleHoldings holdings).zip inputs = pre ++ suf) :
    countersInv (newBatchJob id created) ∧
    countersInv (batchLoop
      { records := records,
        job := startedBatchJob (newBatchJob id created)
                 (eligibleHoldings holdings).length tStart } pre).job ∧
    (batchLoop
      { records := records,
        job := startedBatchJob (newBatchJob id created)
                 (eligibleHoldings holdings).length tStart } pre).job.processed_holdings
      ≤ (batchLoop
      { records := records,
        job := startedBatchJob (newBatchJob id created)
                 (eligibleHoldings holdings).length tStart } pre).job.total_holdings := by
  have hinv0 : countersInv (startedBatchJob (newBatchJob id created)
      (eligibleHoldings holdings).length tStart) := by
    simp [countersInv, startedBatchJob, newBatchJob]
  obtain ⟨a, b, c⟩ := batchLoop_counters pre
    { records := records,
      job := startedBatchJob (newBatchJob id created)
               (eligibleHoldings holdings).length tStart } hinv0
  have hprelen : pre.length ≤ (eligibleHoldings holdings).length := by
    have h1 : pre.length ≤ ((eligibleHoldings holdings).zip inputs).length := by
      rw [hsplit, List.length_append]
      omega
    have h2 : ((eligibleHoldings holdings).zip inputs).length
        ≤ (eligibleHoldings holdings).length := by
      rw [List.length_zip]
      omega
    omega
  refine ⟨by simp [countersInv, newBatchJob], a, ?_⟩
  rw [c]
  simp only [startedBatchJob, newBatchJob] at b ⊢
  simp at b ⊢
  omega

/-- Witness for C1 at a concrete two-holding batch with one success and
one LLM failure, split after the first holding. -/
theorem batch_counters_invariant_witness :
    countersInv (newBatchJob 1 0) ∧
    countersInv (batchLoop
      { records := [],
        job := startedBatchJob (newBatchJob 1 0)
                 (eligibleHoldings [holdingEx]).length 0 }
      [(holdingEx, AnalyzeInput.raised)]).job ∧
    (batchLoop
      { records := [],
        job := startedBatchJob (newBatchJob 1 0)
                 (eligibleHoldings [holdingEx]).length 0 }
      [(holdingEx, AnalyzeInput.raised)]).job.processed_holdings
      ≤ (batchLoop
      { records := [],
        job := startedBatchJob (newBatchJob 1 0)
                 (eligibleHoldings [holdingEx]).length 0 }
      [(holdingEx, AnalyzeInput.raised)]).job.total_holdings :=
  batch_counters_invariant 1 0 0 [] [holdingEx]
    [AnalyzeInput.raised] [(holdingEx, AnalyzeInput.raised)] []
    (by simp [eligibleHoldings, holdingEx, qtyEps]; norm_num)

/-! ## AnalysisRecord field invariants (C3) -/

/-- A concrete article for counterexamples and witnesses. -/
def articleEx : Article :=
  { title := "t", summary := "s", link := "l", published := "p", source := "Yahoo Finance" }

/-- Two analyzer runs on the same ticker: first a success (the record
completes with a sentiment), then a zero-articles failure.  The failed
path never clears `sentiment`/`analysis`, so the final record has
status "failed" with a non-null sentiment. -/
def staleFieldsState : PipelineState :=
  batchLoop { records := [], job := newBatchJob 1 0 }
    [(holdingEx, AnalyzeInput.ran [articleEx] (Except.ok "Sentiment: positive")),
     (holdingEx, AnalyzeInput.ran [] (Except.ok "x"))]

/-- C3 counterexample: after a completed-then-failed sequence of analyzer
runs, the ticker's record has status "failed" while `sentiment` and
`analysis` are still non-null -- the claimed "non-null iff completed"
equivalence is false. -/
theorem record_fields_iff_counterexample :
    (findRecord staleFieldsState.records "AAPL").map NewsAnalysis.status
      = some "failed" ∧
    (findRecord staleFieldsState.records "AAPL").map NewsAnalysis.sentiment
      = some (some "positive") ∧
    (findRecord staleFieldsState.records "AAPL").map NewsAnalysis.analysis
      = some (some "Sentiment: positive") := by
  refine ⟨?_, ?_, ?_⟩ <;> rfl

/-- The direction of the record-field invariant that the code does
maintain. -/
def recordOk (r : NewsAnalysis) : Prop :=
  (r.status = "completed" → r.sentiment ≠ none ∧ r.analysis ≠ none) ∧
  (r.error_message ≠ none ↔ r.status = "failed")

theorem string_eq_empty_of_data {s : String} (h : s.data = []) : s = "" := by
  cases s with
  | mk d =>
    simp only at h
    simp [h]

theorem extract_sentiment_isSome_of_ne_empty (s : String) (h : ¬ s = "") :
    extract_sentiment_from_analysis s ≠ none := by
  have hd : ¬ s.data = [] := fun h0 => h (string_eq_empty_of_data h0)
  simp only [extract_sentiment_from_analysis, if_neg hd]
  split_ifs <;> simp

theorem analyze_record_ok (h : Holding) (prev : Option NewsAnalysis)
    (articles : List Article) (llm : Except String String) (job : BatchJob) :
    recordOk (analyze_holding_news h prev articles llm job).1 := by
  unfold recordOk
  rcases llm with msg | text <;>
    by_cases he : articles.isEmpty <;>
    cases prev <;>
    simp [analyze_holding_news, he] <;>
    (try split_ifs) <;>
    simp_all [extract_sentiment_isSome_of_ne_empty]

theorem mem_upsertRecord (records : List NewsAnalysis) (ra r : NewsAnalysis)
    (h : r ∈ upsertRecord records ra) : r ∈ records ∨ r = ra := by
  unfold upsertRecord at h
  split_ifs at h
  · obtain ⟨x, hx, hmap⟩ := List.mem_map.mp h
    by_cases hxt : x.ticker = ra.ticker
    · right
      rw [if_pos hxt] at hmap
      exact hmap.symm
    · left
      rw [if_neg hxt] at hmap
      exact hmap ▸ hx
  · rcases List.mem_append.mp h with h1 | h1
    · exact Or.inl h1
    · exact Or.inr (by simpa using h1)

theorem processHolding_records_ok (st : PipelineState) (hd : Holding)
    (inp : AnalyzeInput) (hok : ∀ r ∈ st.records, recordOk r) :
    ∀ r ∈ (processHolding st hd inp).records, recordOk r := by
  intro r hr
  cases inp with
  | raised => exact hok r hr
  | ran articles llm =>
      simp only [processHolding] at hr
      rcases mem_upsertRecord _ _ _ hr with h1 | h1
      · exact hok r h1
      · rw [h1]
        exact analyze_record_ok _ _ _ _ _

theorem batchLoop_records_ok (l : List (Holding × AnalyzeInput)) :
    ∀ st : PipelineState, (∀ r ∈ st.records, recordOk r) →
      ∀ r ∈ (batchLoop st l).records, recordOk r := by
  induction l with
  | nil => intro st hok; simpa [batchLoop] using hok
  | cons hd tl ih =>
      intro st hok
      have hstep := processHolding_records_ok st hd.1 hd.2 hok
      have := ih (processHolding st hd.1 hd.2) hstep
      simpa [batchLoop] using this

/-- C3 amended: for every record produced by any sequence of analyzer
runs starting from an empty analysis table, `sentiment` and `analysis`
are non-null IF the status is "completed" (they may also survive, stale,
on a record whose latest run failed), and `error_message` is non-null
iff the status is "failed". -/
theorem record_fields_amended (job0 : BatchJob)
    (l : List (Holding × AnalyzeInput)) (r : NewsAnalysis)
    (hr : r ∈ (batchLoop { records := [], job := job0 } l).records) :
    recordOk r :=
  batchLoop_records_ok l { records := [], job := job0 } (by simp) r hr

/-- Witness for the amended C3 at a one-run batch whose news fetch was
empty. -/
theorem record_fields_amended_witness :
    recordOk
      { ticker := "AAPL", holding_id := some 1, status := "failed",
        news_count := 0, news_articles := "[]", analysis := none,
        sentiment := none,
        error_message := some "No recent news found for AAPL" } :=
  record_fields_amended (newBatchJob 1 0)
    [(holdingEx, AnalyzeInput.ran [] (Except.ok "x"))] _ (by decide)

/-! ## Roundtrip of the stored article payload (C10) -/

theorem hexVal_hexDigitChar (m : Nat) (h : m < 16) :
    hexVal (hexDigitChar m) = some m := by
  interval_cases m <;> rfl

theorem parseStringAux_quote (acc tail : List Char) :
    parseStringAux acc ('"' :: tail) = some (String.mk acc.reverse, tail) := by
  conv_lhs => rw [parseStringAux.eq_def]
  simp

theorem parseStringAux_esc (acc r : List Char) (e d : Char)
    (hu : ¬ e = 'u') (hd : unescapeChar e = some d) :
    parseStringAux acc ('\\' :: e :: r) = parseStringAux (d :: acc) r := by
  conv_lhs => rw [parseStringAux.eq_def]
  simp [hu, hd]

theorem parseStringAux_escU (acc r : List Char) (h1 h2 h3 h4 : Char) (a b cc d : Nat)
    (e1 : hexVal h1 = some a) (e2 : hexVal h2 = some b)
    (e3 : hexVal h3 = some cc) (e4 : hexVal h4 = some d) :
    parseStringAux acc ('\\' :: 'u' :: h1 :: h2 :: h3 :: h4 :: r)
      = parseStringAux (Char.ofNat (((a * 16 + b) * 16 + cc) * 16 + d) :: acc) r := by
  conv_lhs => rw [parseStringAux.eq_def]
  simp [e1, e2, e3, e4]

theorem parseStringAux_plain (acc r : List Char) (c : Char)
    (h1 : ¬ c = '"') (h2 : ¬ c = '\\') (h3 : ¬ c.toNat < 32) :
    parseStringAux acc (c :: r) = parseStringAux (c :: acc) r := by
  conv_lhs => rw [parseStringAux.eq_def]
  simp [h1, h2, h3]

theorem parseStringAux_escList (cs : List Char) :
    ∀ acc tail, parseStringAux acc (escList cs ++ '"' :: tail)
      = some (String.mk (acc.reverse ++ cs), tail) := by
  induction cs with
  | nil =>
      intro acc tail
      simpa [escList] using parseStringAux_quote acc tail
  | cons c cs ih =>
      intro acc tail
      rw [show escList (c :: cs) = escChar c ++ escList cs from rfl, List.append_assoc]
      by_cases hc1 : c = '\\'
      · subst hc1
        rw [show escChar '\\' = ['\\', '\\'] from rfl]
        rw [show (['\\', '\\'] : List Char) ++ (escList cs ++ '"' :: tail)
            = '\\' :: '\\' :: (escList cs ++ '"' :: tail) from rfl]
        rw [parseStringAux_esc _ _ _ _ (by decide) (by rfl), ih]
        simp
      · by_cases hc2 : c = '"'
        · subst hc2
          rw [show escChar '"' = ['\\', '"'] from rfl]
          rw [show (['\\', '"'] : List Char) ++ (escList cs ++ '"' :: tail)
              = '\\' :: '"' :: (escList cs ++ '"' :: tail) from rfl]
          rw [parseStringAux_esc _ _ _ _ (by decide) (by rfl), ih]
          simp
        · by_cases hc3 : c = Char.ofNat 10
          · subst hc3
            rw [show escChar (Char.ofNat 10) = ['\\', 'n'] from rfl]
            rw [show (['\\', 'n'] : List Char) ++ (escList cs ++ '"' :: tail)
                = '\\' :: 'n' :: (escList cs ++ '"' :: tail) from rfl]
            rw [parseStringAux_esc _ _ _ _ (by decide) (by rfl), ih]
            simp
          · by_cases hc4 : c = Char.ofNat 9
            · subst hc4
              rw [show escChar (Char.ofNat 9) = ['\\', 't'] from rfl]
              rw [show (['\\', 't'] : List Char) ++ (escList cs ++ '"' :: tail)
                  = '\\' :: 't' :: (escList cs ++ '"' :: tail) from rfl]
              rw [parseStringAux_esc _ _ _ _ (by decide) (by rfl), ih]
              simp
            · by_cases hc5 : c = Char.ofNat 13
              · subst hc5
                rw [show escChar (Char.ofNat 13) = ['\\', 'r'] from rfl]
                rw [show (['\\', 'r'] : List Char) ++ (escList cs ++ '"' :: tail)
                    = '\\' :: 'r' :: (escList cs ++ '"' :: tail) from rfl]
                rw [parseStringAux_esc _ _ _ _ (by decide) (by rfl), ih]
                simp
              · by_cases hc6 : c = Char.ofNat 8
                · subst hc6
                  rw [show escChar (Char.ofNat 8) = ['\\', 'b'] from rfl]
                  rw [show (['\\', 'b'] : List Char) ++ (escList cs ++ '"' :: tail)
                      = '\\' :: 'b' :: (escList cs ++ '"' :: tail) from rfl]
                  rw [parseStringAux_esc _ _ _ _ (by decide) (by rfl), ih]
                  simp
                · by_cases hc7 : c = Char.ofNat 12
                  · subst hc7
                    rw [show escChar (Char.ofNat 12) = ['\\', 'f'] from rfl]
                    rw [show (['\\', 'f'] : List Char) ++ (escList cs ++ '"' :: tail)
                        = '\\' :: 'f' :: (escList cs ++ '"' :: tail) from rfl]
                    rw [parseStringAux_esc _ _ _ _ (by decide) (by rfl), ih]
                    simp
                  · by_cases hc8 : c.toNat < 32
                    · rw [show escChar c
                          = ['\\', 'u', '0', '0', hexDigitChar (c.toNat / 16),
                             hexDigitChar (c.toNat % 16)] from by
                        simp [escChar, hc1, hc2, hc3, hc4, hc5, hc6, hc7, hc8]]
                      rw [show (['\\', 'u', '0', '0', hexDigitChar (c.toNat / 16),
                             hexDigitChar (c.toNat % 16)] : List Char)
                            ++ (escList cs ++ '"' :: tail)
                          = '\\' :: 'u' :: '0' :: '0' :: hexDigitChar (c.toNat / 16)
                            :: hexDigitChar (c.toNat % 16)
                            :: (escList cs ++ '"' :: tail) from rfl]
                      rw [parseStringAux_escU _ _ _ _ _ _ 0 0 (c.toNat / 16) (c.toNat % 16)
                        (by rfl) (by rfl)
                        (hexVal_hexDigitChar _ (by omega))
                        (hexVal_hexDigitChar _ (by omega))]
                      rw [show ((0 * 16 + 0) * 16 + c.toNat / 16) * 16 + c.toNat % 16
                          = c.toNat from by omega]
                      rw [Char.ofNat_toNat, ih]
                      simp
                    · rw [show escChar c = [c] from by
                        simp [escChar, hc1, hc2, hc3, hc4, hc5, hc6, hc7, hc8]]
                      rw [show ([c] : List Char) ++ (escList cs ++ '"' :: tail)
                          = c :: (escList cs ++ '"' :: tail) from rfl]
                      rw [parseStringAux_plain _ _ _ hc2 hc1 hc8, ih]
                      simp

theorem string_mk_data (s : String) : String.mk s.data = s := rfl

theorem skipWs_cons_not_ws (c : Char) (l : List Char) (h : isJsonWs c = false) :
    skipWs (c :: l) = c :: l := by
  simp [skipWs, h]

theorem skipWs_cons_ws (c : Char) (l : List Char) (h : isJsonWs c = true) :
    skipWs (c :: l) = skipWs l := by
  simp [skipWs, h]

theorem dumpsStr_append (s : String) (tail : List Char) :
    dumpsStr s ++ tail = '"' :: (escList s.data ++ '"' :: tail) := by
  simp [dumpsStr]

theorem parseVal_jstr (f : Nat) (s : String) (tail : List Char) :
    parseVal (f + 1) (dumpsStr s ++ tail) = some (JVal.jstr s, tail) := by
  rw [dumpsStr_append, parseVal.eq_2, skipWs_cons_not_ws _ _ (by rfl)]
  simp [parseStringAux_escList s.data [] tail, string_mk_data]

theorem parseVal_ws (f : Nat) (c : Char) (l : List Char) (h : isJsonWs c = true) :
    parseVal f (c :: l) = parseVal f l := by
  cases f with
  | zero => rfl
  | succ g => rw [parseVal.eq_2, parseVal.eq_2, skipWs_cons_ws _ _ h]

theorem parseFields_ws (f : Nat) (c : Char) (l : List Char) (h : isJsonWs c = true) :
    parseFields f (c :: l) = parseFields f l := by
  cases f with
  | zero => rfl
  | succ g => rw [parseFields.eq_2, parseFields.eq_2, skipWs_cons_ws _ _ h]

theorem parseFields_strFields (fs : List (String × JVal)) :
    ∀ g tail, fs ≠ [] → (∀ kv ∈ fs, ∃ s, kv.2 = JVal.jstr s) →
      parseFields (fs.length + g + 1) (dumpsFields fs ++ rbraceChar :: tail)
        = some (fs, tail) := by
  induction fs with
  | nil => intro g tail hne _; exact absurd rfl hne
  | cons kv rest ih =>
      intro g tail _ hstr
      obtain ⟨k, v⟩ := kv
      obtain ⟨s, hs⟩ := hstr (k, v) (by simp)
      simp only at hs
      subst hs
      cases rest with
      | nil =>
          rw [show ([(k, JVal.jstr s)] : List (String × JVal)).length + g + 1
              = 1 + g + 1 from by simp]
          rw [show dumpsFields [(k, JVal.jstr s)]
              = dumpsStr k ++ (':' :: ' ' :: dumpsStr s) from rfl]
          rw [show (dumpsStr k ++ (':' :: ' ' :: dumpsStr s)) ++ rbraceChar :: tail
              = dumpsStr k ++ (':' :: ' ' :: (dumpsStr s ++ rbraceChar :: tail)) from by
            simp [List.append_assoc]]
          rw [dumpsStr_append]
          rw [parseFields.eq_2, skipWs_cons_not_ws _ _ (by rfl)]
          simp only [if_pos rfl]
          rw [parseStringAux_escList k.data [] _]
          simp only [List.nil_append, string_mk_data]
          rw [skipWs_cons_not_ws _ _ (by rfl)]
          simp only [if_pos rfl]
          rw [parseVal_ws _ _ _ (by rfl)]
          rw [show (1 + g) = g + 1 from by omega]
          rw [parseVal_jstr]
          simp only []
          rw [skipWs_cons_not_ws _ _ (by rfl)]
          simp [string_mk_data, show ¬ (rbraceChar = ',') from by decide]
      | cons kv2 rest2 =>
          rw [show ((k, JVal.jstr s) :: kv2 :: rest2).length + g + 1
              = ((kv2 :: rest2).length + g + 1) + 1 from by simp; omega]
          rw [show dumpsFields ((k, JVal.jstr s) :: kv2 :: rest2)
              = dumpsStr k ++ (':' :: ' ' :: dumpsStr s)
                ++ (',' :: ' ' :: dumpsFields (kv2 :: rest2)) from rfl]
          rw [show (dumpsStr k ++ (':' :: ' ' :: dumpsStr s)
                ++ (',' :: ' ' :: dumpsFields (kv2 :: rest2))) ++ rbraceChar :: tail
              = dumpsStr k ++ (':' :: ' ' :: (dumpsStr s
                ++ (',' :: ' ' :: (dumpsFields (kv2 :: rest2) ++ rbraceChar :: tail))))
              from by simp [List.append_assoc]]
          rw [dumpsStr_append]
          rw [parseFields.eq_2, skipWs_cons_not_ws _ _ (by rfl)]
          simp only [if_pos rfl]
          rw [parseStringAux_escList k.data [] _]
          simp only [List.nil_append, string_mk_data]
          rw [skipWs_cons_not_ws _ _ (by rfl)]
          simp only [if_pos rfl]
          rw [parseVal_ws _ _ _ (by rfl)]
          rw [parseVal_jstr]
          simp only []
          rw [skipWs_cons_not_ws _ _ (by rfl)]
          simp only [if_pos rfl]
          rw [parseFields_ws _ _ _ (by rfl)]
          rw [ih g tail (by simp)
            (fun kv hkv => hstr kv (List.mem_cons_of_mem _ hkv))]
          simp [string_mk_data]

/-- Tail of a serialized field list after the leading key quote. -/
def fieldsRest (v : JVal) (rest : List (String × JVal)) (tl : List Char) : List Char :=
  match rest with
  | [] => ':' :: ' ' :: (dumpsVal v ++ tl)
  | _ :: _ => ':' :: ' ' :: (dumpsVal v ++ (',' :: ' ' :: (dumpsFields rest ++ tl)))

theorem dumpsFields_cons_append (k : String) (v : JVal)
    (rest : List (String × JVal)) (tl : List Char) :
    dumpsFields ((k, v) :: rest) ++ tl
      = '"' :: (escList k.data ++ '"' :: fieldsRest v rest tl) := by
  cases rest <;> simp [dumpsFields, dumpsStr, fieldsRest, List.append_assoc]

theorem parseVal_article (f : Nat) (a : Article) (tail : List Char) :
    parseVal (f + 7) (dumpsVal (encodeArticle a) ++ tail)
      = some (encodeArticle a, tail) := by
  rw [show dumpsVal (encodeArticle a) ++ tail
      = lbraceChar :: (dumpsFields (articleFields a) ++ rbraceChar :: tail) from by
    simp [encodeArticle, dumpsVal, List.append_assoc]]
  rw [parseVal.eq_2, skipWs_cons_not_ws _ _ (by rfl)]
  simp only [if_neg (show ¬ (lbraceChar = '"') from by decide),
    if_neg (show ¬ (lbraceChar = '[') from by decide), if_pos rfl]
  rw [show articleFields a = ("title", JVal.jstr a.title) :: List.tail (articleFields a)
      from rfl]
  rw [dumpsFields_cons_append]
  rw [skipWs_cons_not_ws _ _ (by rfl)]
  simp only [if_neg (show ¬ (('"' : Char) = rbraceChar) from by decide)]
  rw [← dumpsFields_cons_append]
  rw [← show articleFields a = ("title", JVal.jstr a.title) :: List.tail (articleFields a)
      from rfl]
  rw [show f + 6 = (articleFields a).length + f + 1 from by
    simp [articleFields]
    omega]
  rw [parseFields_strFields (articleFields a) f tail (by simp [articleFields])
    (by intro kv hkv; simp [articleFields] at hkv; rcases hkv with h | h | h | h | h <;>
      rw [h] <;> exact ⟨_, rfl⟩)]
  simp [encodeArticle]

theorem parseItems_ws (f : Nat) (c : Char) (l : List Char) (h : isJsonWs c = true) :
    parseItems f (c :: l) = parseItems f l := by
  cases f with
  | zero => rfl
  | succ g => rw [parseItems.eq_2, parseItems.eq_2, parseVal_ws _ _ _ h]

theorem parseItems_articles (arts : List Article) :
    ∀ f tail, arts ≠ [] →
      parseItems (8 * arts.length + (f + 8))
          (dumpsItems (arts.map encodeArticle) ++ ']' :: tail)
        = some (arts.map encodeArticle, tail) := by
  induction arts with
  | nil => intro f tail hne; exact absurd rfl hne
  | cons a rest ih =>
      intro f tail _
      cases rest with
      | nil =>
          rw [show 8 * ([a] : List Article).length + (f + 8) = ((f + 8) + 7) + 1 from by
            simp
            omega]
          rw [show ([a] : List Article).map encodeArticle = [encodeArticle a] from rfl]
          rw [show dumpsItems [encodeArticle a] = dumpsVal (encodeArticle a) from rfl]
          rw [parseItems.eq_2, parseVal_article]
          simp only []
          rw [skipWs_cons_not_ws _ _ (by rfl)]
          simp [show ¬ ((']' : Char) = ',') from by decide]
      | cons r1 r2 =>
          rw [show 8 * ((a :: r1 :: r2) : List Article).length + (f + 8)
              = (((8 * (r1 :: r2).length + f + 8) + 7) + 1) from by
            simp
            omega]
          rw [show ((a :: r1 :: r2) : List Article).map encodeArticle
              = encodeArticle a :: (r1 :: r2).map encodeArticle from rfl]
          rw [show dumpsItems (encodeArticle a :: (r1 :: r2).map encodeArticle)
              = dumpsVal (encodeArticle a)
                ++ (',' :: ' ' :: dumpsItems ((r1 :: r2).map encodeArticle)) from rfl]
          rw [show (dumpsVal (encodeArticle a)
                ++ (',' :: ' ' :: dumpsItems ((r1 :: r2).map encodeArticle))) ++ ']' :: tail
              = dumpsVal (encodeArticle a)
                ++ (',' :: ' ' :: (dumpsItems ((r1 :: r2).map encodeArticle) ++ ']' :: tail))
              from by simp [List.append_assoc]]
          rw [parseItems.eq_2, parseVal_article]
          simp only []
          rw [skipWs_cons_not_ws _ _ (by rfl)]
          simp only [if_pos rfl]
          rw [parseItems_ws _ _ _ (by rfl)]
          rw [show 8 * (r1 :: r2).length + f + 8 + 7
              = 8 * (r1 :: r2).length + ((f + 7) + 8) from by omega]
          rw [ih (f + 7) tail (by simp)]
          simp

theorem escChar_length_pos (c : Char) : 1 ≤ (escChar c).length := by
  simp only [escChar]
  split_ifs <;> simp

theorem escList_length_le (cs : List Char) : cs.length ≤ (escList cs).length := by
  induction cs with
  | nil => simp [escList]
  | cons c cs ih =>
      have := escChar_length_pos c
      simp only [escList, List.length_append, List.length_cons]
      omega

theorem article_dumps_length (a : Article) :
    14 ≤ (dumpsVal (encodeArticle a)).length := by
  have h1 := escList_length_le "title".data
  have h2 := escList_length_le "summary".data
  have h3 := escList_length_le "link".data
  have h4 := escList_length_le "published".data
  have h5 := escList_length_le "source".data
  simp [encodeArticle, articleFields, dumpsVal, dumpsFields, dumpsStr,
    List.length_append] at *
  omega

theorem dumpsItems_articles_length (arts : List Article) :
    arts ≠ [] → 16 * arts.length ≤ (dumpsItems (arts.map encodeArticle)).length + 2 := by
  induction arts with
  | nil => intro hne; exact absurd rfl hne
  | cons a rest ih =>
      intro _
      cases rest with
      | nil =>
          have := article_dumps_length a
          simp only [List.map_cons, List.map_nil, List.length_cons, List.length_nil]
          rw [show dumpsItems [encodeArticle a] = dumpsVal (encodeArticle a) from rfl]
          omega
      | cons r1 r2 =>
          have h1 := article_dumps_length a
          have h2 := ih (by simp)
          simp only [List.map_cons, List.length_cons] at h2 ⊢
          rw [show dumpsItems (encodeArticle a :: encodeArticle r1
                :: List.map encodeArticle r2)
              = dumpsVal (encodeArticle a) ++ (',' :: ' ' :: dumpsItems
                (encodeArticle r1 :: List.map encodeArticle r2)) from rfl]
          simp only [List.length_append, List.length_cons]
          omega

/-- Decoding a freshly serialized article list recovers exactly the
encoded value: the fuel `length + 1` that `json_loads` uses is always
sufficient for payloads `set_news_articles` produces. -/
theorem json_loads_set_news_articles (arts : List Article) :
    json_loads (set_news_articles arts) = some (encodeArticles arts) := by
  cases arts with
  | nil => rfl
  | cons a rest =>
      show json_loads (String.mk (dumpsVal (JVal.jarr ((a :: rest).map encodeArticle))))
        = some (JVal.jarr ((a :: rest).map encodeArticle))
      rw [show dumpsVal (JVal.jarr ((a :: rest).map encodeArticle))
          = '[' :: (dumpsItems ((a :: rest).map encodeArticle) ++ [']']) from rfl]
      unfold json_loads
      dsimp only
      simp only [List.length_cons]
      rw [parseVal.eq_2, skipWs_cons_not_ws _ _ (by rfl)]
      simp only [if_neg (show ¬ (('[' : Char) = '"') from by decide), if_pos rfl]
      obtain ⟨f, hf⟩ : ∃ f, (dumpsItems ((a :: rest).map encodeArticle) ++ [']']).length + 1
          = 8 * (a :: rest).length + (f + 8) := by
        refine ⟨(dumpsItems ((a :: rest).map encodeArticle) ++ [']']).length + 1
          - (8 * (a :: rest).length + 8), ?_⟩
        have hble := dumpsItems_articles_length (a :: rest) (by simp)
        simp only [List.length_append, List.length_cons, List.length_nil] at *
        omega
      rw [hf]
      cases hrest : rest with
      | nil =>
          rw [show ([a] : List Article).map encodeArticle = [encodeArticle a] from rfl]
          rw [show dumpsItems [encodeArticle a] ++ ([']'] : List Char)
              = lbraceChar :: (dumpsFields (articleFields a) ++ rbraceChar :: [']'])
              from by simp [dumpsItems, encodeArticle, dumpsVal, List.append_assoc]]
          rw [skipWs_cons_not_ws _ _ (by rfl)]
          simp only [if_neg (show ¬ (lbraceChar = ']') from by decide)]
          rw [← show dumpsItems [encodeArticle a] ++ ([']'] : List Char)
              = lbraceChar :: (dumpsFields (articleFields a) ++ rbraceChar :: [']'])
              from by simp [dumpsItems, encodeArticle, dumpsVal, List.append_assoc]]
          rw [show dumpsItems [encodeArticle a] ++ ([']'] : List Char)
              = dumpsItems (([a] : List Article).map encodeArticle) ++ ']' :: [] from rfl]
          rw [parseItems_articles [a] f [] (by simp)]
          simp [skipWs]
      | cons r1 r2 =>
          rw [show ((a :: r1 :: r2) : List Article).map encodeArticle
              = encodeArticle a :: (r1 :: r2).map encodeArticle from rfl]
          rw [show dumpsItems (encodeArticle a :: (r1 :: r2).map encodeArticle)
                ++ ([']'] : List Char)
              = lbraceChar :: ((dumpsFields (articleFields a) ++ rbraceChar
                :: (',' :: ' ' :: (dumpsItems ((r1 :: r2).map encodeArticle)
                  ++ [']'])))) from by
            simp [dumpsItems, encodeArticle, dumpsVal, List.append_assoc]]
          rw [skipWs_cons_not_ws _ _ (by rfl)]
          simp only [if_neg (show ¬ (lbraceChar = ']') from by decide)]
          rw [← show dumpsItems (encodeArticle a :: (r1 :: r2).map encodeArticle)
                ++ ([']'] : List Char)
              = lbraceChar :: ((dumpsFields (articleFields a) ++ rbraceChar
                :: (',' :: ' ' :: (dumpsItems ((r1 :: r2).map encodeArticle)
                  ++ [']'])))) from by
            simp [dumpsItems, encodeArticle, dumpsVal, List.append_assoc]]
          rw [show dumpsItems (encodeArticle a :: (r1 :: r2).map encodeArticle)
                ++ ([']'] : List Char)
              = dumpsItems (((a :: r1 :: r2) : List Article).map encodeArticle)
                ++ ']' :: [] from rfl]
          rw [parseItems_articles (a :: r1 :: r2) f [] (by simp)]
          simp [skipWs]

/-- C10: decoding the stored article payload is total -- empty stored
text, the default "[]", and any string the parser rejects all yield the
empty list, and a `set_news_articles` followed by `get_news_articles`
returns exactly the encoded article list. -/
theorem get_news_articles_total_and_roundtrip :
    get_news_articles "" = JVal.jarr [] ∧
    get_news_articles "[]" = JVal.jarr [] ∧
    (∀ s : String, json_loads s = none → get_news_articles s = JVal.jarr []) ∧
    (∀ arts : List Article, get_news_articles (set_news_articles arts)
      = JVal.jarr (arts.map encodeArticle)) := by
  refine ⟨rfl, rfl, ?_, ?_⟩
  · intro s hs
    unfold get_news_articles
    split_ifs
    · rfl
    · rw [hs]
  · intro arts
    unfold get_news_articles
    split_ifs with h
    · exfalso
      rw [show set_news_articles arts
          = String.mk (dumpsVal (JVal.jarr (arts.map encodeArticle))) from rfl] at h
      rw [show dumpsVal (JVal.jarr (arts.map encodeArticle))
          = '[' :: (dumpsItems (arts.map encodeArticle) ++ [']']) from rfl] at h
      simp at h
    · rw [json_loads_set_news_articles]
      rfl

/-- Witness for C10: a rejected string yields the empty list, and a
stored one-article list decodes to its encoding. -/
theorem get_news_articles_total_and_roundtrip_witness :
    get_news_articles "not json" = JVal.jarr [] ∧
    get_news_articles (set_news_articles [articleEx])
      = JVal.jarr [encodeArticle articleEx] :=
  ⟨get_news_articles_total_and_roundtrip.2.2.1 "not json" (by rfl),
   get_news_articles_total_and_roundtrip.2.2.2 [articleEx]⟩
